import Mathlib

/-!
Verification of the tapcp client library (`src/lib.rs`) against its
natural-language specification.

Bytes are modelled as `Nat` values (reduced mod 256 wherever the code
assembles machine words), buffers as `List Nat`.  The TFTP transfer engine
(`tftp.rs`, not part of the sources under verification) is modelled as an
oracle function from a path string to the bytes the exchange returned, so
every property is stated for an arbitrary transfer outcome.  The CSL
directory decoder (`csl.rs`, also not among the sources) is modelled from
the spec's description of the compact device list.
-/

deriving instance DecidableEq for Except

namespace Tapcp

/-- `u32::from_be_bytes` on four bytes: big-endian 32-bit word assembly
(`src/lib.rs` lines 66-67, 12). Inputs are reduced mod 256, as `u8` values are. -/
def u32_from_be (b0 b1 b2 b3 : Nat) : Nat :=
  (b0 % 256) * 2 ^ 24 + (b1 % 256) * 2 ^ 16 + (b2 % 256) * 2 ^ 8 + (b3 % 256)

/-- One lowercase hexadecimal digit character for a value below 16. -/
def hexChar (d : Nat) : Char :=
  if d < 10 then Char.ofNat (48 + d) else Char.ofNat (87 + d)

/-- The sixteen lowercase hexadecimal digit characters, in value order:
the characters 0-9 followed by a-f. -/
def hexDigits : List Char :=
  (List.range 16).map hexChar

/-- Hexadecimal digits of `n`, least significant first.  The first argument is
fuel; `n` itself is always sufficient fuel since `n / 16 < n` for `n > 0`. -/
def hexRevAux : Nat → Nat → List Char
  | _, 0 => []
  | 0, _ + 1 => []
  | fuel + 1, n + 1 => hexChar ((n + 1) % 16) :: hexRevAux fuel ((n + 1) / 16)

/-- Rust's `format!("{:x}", n)` for an unsigned integer: minimal lowercase
hexadecimal digits, no `0x` prefix, and `"0"` for zero. -/
def toHex (n : Nat) : String :=
  if n = 0 then "0" else String.mk (hexRevAux n n).reverse

/-- Numeric value of a hexadecimal digit character (inverse of `hexChar`). -/
def hexVal (c : Char) : Nat :=
  if c.toNat ≥ 97 then c.toNat - 87 else c.toNat - 48

/-- Value of a string of hexadecimal digits, most significant first. -/
def ofHex (s : String) : Nat :=
  s.data.foldl (fun a c => a * 16 + hexVal c) 0

/-- The path for a device read, `format!("/dev/{}.{:x}.{:x}", device, offset, n)`
(`src/lib.rs` line 86). -/
def readDevicePath (device : String) (offset n : Nat) : String :=
  "/dev/" ++ device ++ "." ++ toHex offset ++ "." ++ toHex n

/-- The path for a device write, `format!("/dev/{}.{:x}", device, offset)`
(`src/lib.rs` line 103): no count component. -/
def writeDevicePath (device : String) (offset : Nat) : String :=
  "/dev/" ++ device ++ "." ++ toHex offset

/-- The path for a flash read, `format!("/flash.{:x}.{:x}", offset, n)`
(`src/lib.rs` line 112). -/
def readFlashPath (offset n : Nat) : String :=
  "/flash." ++ toHex offset ++ "." ++ toHex n

/-- Failures surfaced by this addressing layer: either an error propagated from
the tftp transfer engine, or the size check `bail!` of `read_device`
(`src/lib.rs` line 89), the spec's `SizeMismatch`. -/
inductive TapcpError where
  | engine : TapcpError
  | sizeMismatch : TapcpError
deriving Repr, DecidableEq

/-- A transfer oracle: what `tftp::read` returns for a given path. -/
abbrev Transfer := String → Except TapcpError (List Nat)

/-- `read_device` (`src/lib.rs` lines 78-92): build the path, run the transfer,
and for nonzero `n` fail when the byte count differs from `n * 4`. -/
def read_device (device : String) (offset n : Nat) (transfer : Transfer) :
    Except TapcpError (List Nat) :=
  match transfer (readDevicePath device offset n) with
  | .error e => .error e
  | .ok bytes => if n ≠ 0 ∧ bytes.length ≠ n * 4 then .error .sizeMismatch else .ok bytes

/-- `write_device` (`src/lib.rs` lines 95-106): build the count-free path and
hand the payload to the transfer engine. -/
def write_device (device : String) (offset : Nat) (data : List Nat)
    (transfer : String → List Nat → Except TapcpError Unit) : Except TapcpError Unit :=
  transfer (writeDevicePath device offset) data

/-- `read_flash` (`src/lib.rs` lines 110-115): build the path, run the transfer,
and return whatever bytes came back.  The source performs no size check here. -/
def read_flash (offset n : Nat) (transfer : Transfer) : Except TapcpError (List Nat) :=
  match transfer (readFlashPath offset n) with
  | .error e => .error e
  | .ok bytes => .ok bytes

/-- Outcome of code that may panic: Rust's `bytes[..4]` aborts instead of
returning an error value, which `panic` records. -/
inductive PanicOr (α : Type) where
  | panic : PanicOr α
  | ok : α → PanicOr α
deriving Repr, DecidableEq

/-- Rust slice indexing `bytes[..k]`: the prefix of length `k`, panicking when
the slice is shorter than `k`. -/
def sliceTo (bytes : List Nat) (k : Nat) : PanicOr (List Nat) :=
  if k ≤ bytes.length then .ok (List.take k bytes) else .panic

/-- `temp` (`src/lib.rs` lines 10-13) applied to the bytes the `/temp` transfer
returned: take `bytes[..4]` (panics when fewer than 4 bytes arrived) and
assemble the big-endian 32-bit word.  The `f32` the source returns is
represented by its bit pattern, since `f32::from_be_bytes` is exactly this
big-endian reinterpretation of the four bytes. -/
def temp (bytes : List Nat) : PanicOr Nat :=
  match sliceTo bytes 4 with
  | .panic => .panic
  | .ok s =>
    match s with
    | [b0, b1, b2, b3] => .ok (u32_from_be b0 b1 b2 b3)
    | _ => .panic

/-- A decoded directory entry, `Device` of `src/lib.rs` lines 22-28. -/
structure Device where
  addr : Nat
  length : Nat
deriving Repr, DecidableEq

/-- Directory decoding failure, the spec's `DecodeError`, with the three causes
the spec lists: a name that is not valid UTF-8, a record truncated at the end
of the buffer, and a buffer ending mid-name with no terminator. -/
inductive DecodeError where
  | invalidUtf8 : DecodeError
  | truncatedRecord : DecodeError
  | unterminatedName : DecodeError
deriving Repr, DecidableEq

/-- The directory mapping, keyed by name bytes.  Models the `HashMap` of
`listdev` as an association list with unique keys. -/
abbrev DevMap := List (List Nat × Device)

/-- `HashMap::insert` (`src/lib.rs` line 70): replace the binding when the key
is present, append a fresh binding otherwise. -/
def insertDev (m : DevMap) (k : List Nat) (v : Device) : DevMap :=
  match m with
  | [] => [(k, v)]
  | (k0, v0) :: rest => if k0 = k then (k0, v) :: rest else (k0, v0) :: insertDev rest k v

/-- Lookup in the directory mapping. -/
def findDev (m : DevMap) (k : List Nat) : Option Device :=
  match m with
  | [] => none
  | (k0, v0) :: rest => if k0 = k then some v0 else findDev rest k

/-- UTF-8 continuation byte, `0x80..=0xBF`. -/
def isCont (b : Nat) : Bool :=
  128 ≤ b && b ≤ 191

/-- UTF-8 validity of a byte sequence (RFC 3629, the check behind
`CStr::to_str` at `src/lib.rs` line 59): well-formed lead/continuation
structure with overlong encodings, surrogates and values above U+10FFFF
rejected. -/
def utf8Valid : List Nat → Bool
  | [] => true
  | b :: rest =>
    if b ≤ 127 then utf8Valid rest
    else if 194 ≤ b && b ≤ 223 then
      match rest with
      | c1 :: r => isCont c1 && utf8Valid r
      | [] => false
    else if b = 224 then
      match rest with
      | c1 :: c2 :: r => (160 ≤ c1 && c1 ≤ 191) && isCont c2 && utf8Valid r
      | _ => false
    else if (225 ≤ b && b ≤ 236) || b = 238 || b = 239 then
      match rest with
      | c1 :: c2 :: r => isCont c1 && isCont c2 && utf8Valid r
      | _ => false
    else if b = 237 then
      match rest with
      | c1 :: c2 :: r => (128 ≤ c1 && c1 ≤ 159) && isCont c2 && utf8Valid r
      | _ => false
    else if b = 240 then
      match rest with
      | c1 :: c2 :: c3 :: r => (144 ≤ c1 && c1 ≤ 191) && isCont c2 && isCont c3 && utf8Valid r
      | _ => false
    else if 241 ≤ b && b ≤ 243 then
      match rest with
      | c1 :: c2 :: c3 :: r => isCont c1 && isCont c2 && isCont c3 && utf8Valid r
      | _ => false
    else if b = 244 then
      match rest with
      | c1 :: c2 :: c3 :: r => (128 ≤ c1 && c1 ≤ 143) && isCont c2 && isCont c3 && utf8Valid r
      | _ => false
    else false

/-- Modelled from the spec: scanning the buffer for a name's null terminator
(the `CStr::from_ptr` step of `src/lib.rs` line 58, inside the `csl.rs`
iterator that is not among the sources).  Returns the name bytes before the
first null and the bytes after it, or `none` when the buffer ends with no
terminator found. -/
def splitAtNull : List Nat → Option (List Nat × List Nat)
  | [] => none
  | 0 :: rest => some ([], rest)
  | b :: rest => Option.map (fun p => (b :: p.1, p.2)) (splitAtNull rest)

/-- The 8-byte record following a name: two big-endian 32-bit words, offset
(address) first and length second (`src/lib.rs` lines 63-67).  Returns `none`
when fewer than 8 bytes remain. -/
def takeRecord (l : List Nat) : Option (Device × List Nat) :=
  match l with
  | b0 :: b1 :: b2 :: b3 :: b4 :: b5 :: b6 :: b7 :: tail =>
    some (⟨u32_from_be b0 b1 b2 b3, u32_from_be b4 b5 b6 b7⟩, tail)
  | _ => none

/-- Modelled from the spec: the compact device list decoding loop (`csl.rs` is
not among the sources).  Per the spec, the buffer is a sequence of entries,
each a null-terminated name followed by an 8-byte record; each entry is
inserted into the mapping as in `src/lib.rs` line 70, and reaching the end of
the buffer mid-name or mid-record is a decode failure.  The first argument is
a structural bound on the number of entries; every entry consumes at least
nine bytes, so the buffer length (what `decodeDir` passes) always suffices
and the exhaustion arm is never reached from `decodeDir`. -/
def decodeLoop : Nat → List Nat → DevMap → Except DecodeError DevMap
  | _, [], acc => .ok acc
  | 0, _ :: _, _ => .error .unterminatedName
  | fuel + 1, b :: rest, acc =>
    (splitAtNull (b :: rest)).elim (Except.error DecodeError.unterminatedName) fun p =>
      if utf8Valid p.1 then
        (takeRecord p.2).elim (Except.error DecodeError.truncatedRecord) fun q =>
          decodeLoop fuel q.2 (insertDev acc p.1 q.1)
      else .error .invalidUtf8

/-- Modelled from the spec: the whole directory decoder — a cursor starting at
the head of the buffer, a fresh mapping, and an empty buffer decoding to an
empty directory. -/
def decodeDir (buf : List Nat) : Except DecodeError DevMap :=
  decodeLoop buf.length buf []

/-- Modelled from the spec: the hidden process-wide state of the CSL iterator
(`csl.rs` is not among the sources) — a cursor over the buffer handed to
`csl_iter_init`, here kept as the not-yet-consumed bytes. -/
structure CslState where
  rem : List Nat
deriving Repr, DecidableEq

/-- Modelled from the spec: `csl_iter_init` (`src/lib.rs` line 41) points the
shared cursor at the new buffer, discarding whatever state earlier calls left. -/
def csl_iter_init (buf : List Nat) (_g : CslState) : CslState :=
  ⟨buf⟩

/-- The `listdev` loop (`src/lib.rs` lines 47-71) with the iterator state
passed explicitly: the same decoding as `decodeLoop`, also returning the
cursor the shared CSL state holds when the loop exits. -/
def decodeLoopSt : Nat → List Nat → DevMap → (Except DecodeError DevMap) × CslState
  | _, [], acc => (.ok acc, ⟨[]⟩)
  | 0, b :: rest, _ => (.error .unterminatedName, ⟨b :: rest⟩)
  | fuel + 1, b :: rest, acc =>
    (splitAtNull (b :: rest)).elim
      ((Except.error DecodeError.unterminatedName, ⟨b :: rest⟩)) fun p =>
      if utf8Valid p.1 then
        (takeRecord p.2).elim
          ((Except.error DecodeError.truncatedRecord, ⟨b :: rest⟩)) fun q =>
          decodeLoopSt fuel q.2 (insertDev acc p.1 q.1)
      else (Except.error DecodeError.invalidUtf8, ⟨b :: rest⟩)

/-- One `listdev` call (`src/lib.rs` lines 31-73) on the bytes the `/listdev`
transfer returned, threading the process-wide CSL state: skip the two length
header bytes, re-initialise the shared cursor, and run the decoding loop.
Returns the decoded mapping together with the CSL state left behind. -/
def listdevRun (bytes : List Nat) (g : CslState) : (Except DecodeError DevMap) × CslState :=
  let g1 := csl_iter_init (List.drop 2 bytes) g
  decodeLoopSt g1.rem.length g1.rem []

/-! Hexadecimal rendering lemmas supporting the path-construction claims. -/

theorem hexChar_mem (d : Nat) (h : d < 16) : hexChar d ∈ hexDigits :=
  List.mem_map_of_mem hexChar (List.mem_range.mpr h)

theorem hexVal_hexChar (d : Nat) (h : d < 16) : hexVal (hexChar d) = d := by
  interval_cases d <;> decide

theorem hexRevAux_mem (fuel : Nat) :
    ∀ n c, n ≤ fuel → c ∈ hexRevAux fuel n → c ∈ hexDigits := by
  induction fuel with
  | zero =>
    intro n c hn hc
    interval_cases n
    simp [hexRevAux] at hc
  | succ f ih =>
    intro n c hn hc
    match n with
    | 0 => simp [hexRevAux] at hc
    | m + 1 =>
      simp only [hexRevAux, List.mem_cons] at hc
      rcases hc with h | h
      · exact h ▸ hexChar_mem _ (by omega)
      · exact ih _ _ (by omega) h

theorem hexRevAux_foldr (fuel : Nat) :
    ∀ n a, n ≤ fuel →
      List.foldr (fun c b => b * 16 + hexVal c) a (hexRevAux fuel n)
        = a * 16 ^ (hexRevAux fuel n).length + n := by
  induction fuel with
  | zero =>
    intro n a hn
    interval_cases n
    simp [hexRevAux]
  | succ f ih =>
    intro n a hn
    match n with
    | 0 => simp [hexRevAux]
    | m + 1 =>
      have hdiv : (m + 1) / 16 ≤ f := by omega
      simp only [hexRevAux, List.foldr_cons, List.length_cons]
      rw [ih _ a hdiv, hexVal_hexChar _ (by omega), pow_succ]
      have hmod : ((m + 1) / 16) * 16 + (m + 1) % 16 = m + 1 := by omega
      calc (a * 16 ^ (hexRevAux f ((m + 1) / 16)).length + (m + 1) / 16) * 16 + (m + 1) % 16
          = a * (16 ^ (hexRevAux f ((m + 1) / 16)).length * 16)
              + (((m + 1) / 16) * 16 + (m + 1) % 16) := by ring
        _ = a * (16 ^ (hexRevAux f ((m + 1) / 16)).length * 16) + (m + 1) := by rw [hmod]

theorem toHex_chars (n : Nat) : ∀ c ∈ (toHex n).data, c ∈ hexDigits := by
  unfold toHex
  split
  · intro c hc
    simp at hc
    subst hc
    exact hexChar_mem 0 (by omega)
  · intro c hc
    rw [show (String.mk ((hexRevAux n n).reverse)).data = (hexRevAux n n).reverse from rfl,
      List.mem_reverse] at hc
    exact hexRevAux_mem n n c le_rfl hc

theorem toHex_all_hex (n : Nat) :
    ((toHex n).data.all fun c => decide (c ∈ hexDigits)) = true := by
  rw [List.all_eq_true]
  intro c hc
  exact decide_eq_true (toHex_chars n c hc)

theorem ofHex_toHex (n : Nat) : ofHex (toHex n) = n := by
  unfold toHex
  split
  · rename_i h
    subst h
    decide
  · unfold ofHex
    rw [show (String.mk ((hexRevAux n n).reverse)).data = (hexRevAux n n).reverse from rfl,
      List.foldl_reverse]
    rw [hexRevAux_foldr n n 0 le_rfl]
    simp

/-- C6: for every device name, offset and count, the device-read path is
`/dev/<name>.<offset>.<count>` with offset and count rendered as minimal
lowercase hexadecimal with no `0x` prefix (every rendered character is one of
`0-9a-f`, and the rendering is value-faithful: `ofHex` recovers the number);
in particular `sys_scratchpad, 0, 1` yields `/dev/sys_scratchpad.0.1` and
`offset = 255, count = 0` yields `/dev/sys_scratchpad.ff.0`. -/
theorem read_device_path_spec :
    (∀ device offset n, readDevicePath device offset n
        = "/dev/" ++ device ++ "." ++ toHex offset ++ "." ++ toHex n)
    ∧ (∀ k, ((toHex k).data.all fun c => decide (c ∈ hexDigits)) = true)
    ∧ (∀ k, ofHex (toHex k) = k)
    ∧ readDevicePath "sys_scratchpad" 0 1 = "/dev/sys_scratchpad.0.1"
    ∧ readDevicePath "sys_scratchpad" 255 0 = "/dev/sys_scratchpad.ff.0" :=
  ⟨fun _ _ _ => rfl, toHex_all_hex, ofHex_toHex, by decide, by decide⟩

/-- C7: for every device name, offset and payload, the device-write path is
`/dev/<name>.<offset>` with the offset in lowercase hexadecimal and no count
component: the payload is handed to the transfer unchanged and the path does
not depend on it, whatever its length. -/
theorem write_device_path_spec :
    (∀ device offset data transfer,
      write_device device offset data transfer
        = transfer ("/dev/" ++ device ++ "." ++ toHex offset) data)
    ∧ (∀ device offset, writeDevicePath device offset
        = "/dev/" ++ device ++ "." ++ toHex offset)
    ∧ (∀ k, ((toHex k).data.all fun c => decide (c ∈ hexDigits)) = true)
    ∧ writeDevicePath "sys_scratchpad" 255 = "/dev/sys_scratchpad.ff" :=
  ⟨fun _ _ _ _ => rfl, fun _ _ => rfl, toHex_all_hex, by decide⟩

/-- C4: a device read with count 0 never raises `SizeMismatch`: whatever byte
vector the transfer returns, of any length including lengths that are not a
multiple of 4, `read_device` returns it unchanged. -/
theorem read_device_count_zero (device : String) (offset : Nat) (bytes : List Nat)
    (transfer : Transfer)
    (h : transfer (readDevicePath device offset 0) = .ok bytes) :
    read_device device offset 0 transfer = .ok bytes
    ∧ read_device device offset 0 transfer ≠ .error .sizeMismatch := by
  unfold read_device
  rw [h]
  simp

theorem read_device_count_zero_witness :
    read_device "sys_scratchpad" 0 0 (fun _ => .ok [1, 2, 3]) = .ok [1, 2, 3]
    ∧ read_device "sys_scratchpad" 0 0 (fun _ => .ok [1, 2, 3])
        ≠ .error .sizeMismatch :=
  read_device_count_zero "sys_scratchpad" 0 [1, 2, 3] (fun _ => .ok [1, 2, 3]) rfl

/-- C5: a device read with count `n > 0` raises `SizeMismatch` exactly when the
byte vector the transfer returned has length different from `n * 4`, and
otherwise returns that byte vector unchanged. -/
theorem read_device_count_nonzero (device : String) (offset n : Nat) (bytes : List Nat)
    (transfer : Transfer) (hn : 0 < n)
    (h : transfer (readDevicePath device offset n) = .ok bytes) :
    (read_device device offset n transfer = .error .sizeMismatch
      ↔ bytes.length ≠ n * 4)
    ∧ (bytes.length = n * 4 → read_device device offset n transfer = .ok bytes) := by
  unfold read_device
  rw [h]
  by_cases hl : bytes.length = n * 4
  · simp [hl]
  · have hn' : n ≠ 0 := by omega
    simp [hl, hn']

theorem read_device_count_nonzero_witness :
    (read_device "sys_scratchpad" 0 1 (fun _ => .ok [1, 2, 3]) = .error .sizeMismatch
      ↔ ([1, 2, 3] : List Nat).length ≠ 1 * 4)
    ∧ (([1, 2, 3] : List Nat).length = 1 * 4 →
        read_device "sys_scratchpad" 0 1 (fun _ => .ok [1, 2, 3]) = .ok [1, 2, 3]) :=
  read_device_count_nonzero "sys_scratchpad" 0 1 [1, 2, 3]
    (fun _ => .ok [1, 2, 3]) (by decide) rfl

/-- C3 counterexample: `read_flash` performs no size validation.  With count
`n = 1` and a transfer returning a single byte (length 1 ≠ 1 × 4), the claim
demands a `SizeMismatch` failure, but `read_flash` returns the byte unchanged. -/
theorem read_flash_counterexample :
    read_flash 0 1 (fun _ => .ok [0]) = .ok [0]
    ∧ read_flash 0 1 (fun _ => .ok [0]) ≠ .error .sizeMismatch
    ∧ ([0] : List Nat).length ≠ 1 * 4 :=
  ⟨rfl, by decide, by decide⟩

/-- C3 amended: for every flash read, whatever byte vector the transfer
returns, `read_flash` returns it unchanged — it validates nothing and never
raises `SizeMismatch`, for zero and nonzero counts alike. -/
theorem read_flash_returns_transfer (offset n : Nat) (bytes : List Nat)
    (transfer : Transfer)
    (h : transfer (readFlashPath offset n) = .ok bytes) :
    read_flash offset n transfer = .ok bytes
    ∧ read_flash offset n transfer ≠ .error .sizeMismatch := by
  unfold read_flash
  rw [h]
  simp

theorem read_flash_returns_transfer_witness :
    read_flash 0 2 (fun _ => .ok [5]) = .ok [5]
    ∧ read_flash 0 2 (fun _ => .ok [5]) ≠ .error .sizeMismatch :=
  read_flash_returns_transfer 0 2 [5] (fun _ => .ok [5]) rfl

/-- C10: when the `/temp` transfer returns fewer than 4 bytes, `temp` panics
(Rust slice indexing `bytes[..4]` aborts) rather than returning an error
outcome; when at least 4 bytes arrive, it returns the value assembled
big-endian from the first 4 bytes — the bit pattern of the `f32` the source
produces with `f32::from_be_bytes`. -/
theorem temp_spec :
    (∀ bytes : List Nat, bytes.length < 4 → temp bytes = .panic)
    ∧ (∀ (b0 b1 b2 b3 : Nat) (rest : List Nat),
        temp (b0 :: b1 :: b2 :: b3 :: rest) = .ok (u32_from_be b0 b1 b2 b3)) := by
  constructor
  · intro bytes h
    unfold temp sliceTo
    rw [if_neg (by omega)]
  · intro b0 b1 b2 b3 rest
    unfold temp sliceTo
    rw [if_pos (by simp)]
    simp [List.take]

theorem temp_spec_witness :
    temp [1, 2, 3] = .panic ∧ temp [63, 128, 0, 0, 9] = .ok 1065353216 :=
  ⟨temp_spec.1 [1, 2, 3] (by decide), temp_spec.2 63 128 0 0 [9]⟩

/-! Directory decoder lemmas.  The step lemmas below are definitional
unfoldings of `splitAtNull`, `takeRecord` and the decoding loops, so later
proofs can rewrite one decoding step at a time. -/

theorem splitAtNull_zero (rest : List Nat) : splitAtNull (0 :: rest) = some ([], rest) := rfl

theorem splitAtNull_pos (m : Nat) (rest : List Nat) :
    splitAtNull ((m + 1) :: rest)
      = Option.map (fun p => ((m + 1) :: p.1, p.2)) (splitAtNull rest) := rfl

theorem splitAtNull_none (buf : List Nat) (h : 0 ∉ buf) : splitAtNull buf = none := by
  induction buf with
  | nil => rfl
  | cons b rest ih =>
    rcases b with _ | m
    · exact absurd (List.mem_cons_self 0 rest) h
    · rw [splitAtNull_pos, ih fun hm => h (List.mem_cons_of_mem _ hm)]
      rfl

theorem splitAtNull_append (name rest : List Nat) (h : 0 ∉ name) :
    splitAtNull (name ++ 0 :: rest) = some (name, rest) := by
  induction name with
  | nil => rfl
  | cons b nm ih =>
    rcases b with _ | m
    · exact absurd (List.mem_cons_self 0 nm) h
    · rw [List.cons_append, splitAtNull_pos, ih fun hm => h (List.mem_cons_of_mem _ hm)]
      rfl

theorem splitAtNull_length (buf : List Nat) :
    ∀ name tail, splitAtNull buf = some (name, tail) →
      buf.length = name.length + 1 + tail.length := by
  induction buf with
  | nil =>
    intro name tail h
    exact Option.noConfusion h
  | cons b rest ih =>
    intro name tail h
    rcases b with _ | m
    · rw [splitAtNull_zero] at h
      cases h
      simp only [List.length_cons, List.length_nil]
      omega
    · rw [splitAtNull_pos] at h
      cases hs : splitAtNull rest with
      | none =>
        rw [hs] at h
        exact Option.noConfusion h
      | some p =>
        rw [hs] at h
        simp only [Option.map] at h
        cases h
        have hp := ih p.1 p.2 hs
        simp only [List.length_cons]
        omega

theorem takeRecord_cons8 (b0 b1 b2 b3 b4 b5 b6 b7 : Nat) (tail : List Nat) :
    takeRecord (b0 :: b1 :: b2 :: b3 :: b4 :: b5 :: b6 :: b7 :: tail)
      = some (⟨u32_from_be b0 b1 b2 b3, u32_from_be b4 b5 b6 b7⟩, tail) := rfl

theorem takeRecord_short (l : List Nat) (h : l.length < 8) : takeRecord l = none := by
  rcases l with _ | ⟨x0, _ | ⟨x1, _ | ⟨x2, _ | ⟨x3, _ | ⟨x4, _ | ⟨x5, _ | ⟨x6, _ | ⟨x7, tl⟩⟩⟩⟩⟩⟩⟩⟩
  all_goals try rfl
  exfalso
  simp at h
  omega

theorem takeRecord_length (l : List Nat) :
    ∀ d t, takeRecord l = some (d, t) → l.length = 8 + t.length := by
  rcases l with _ | ⟨x0, _ | ⟨x1, _ | ⟨x2, _ | ⟨x3, _ | ⟨x4, _ | ⟨x5, _ | ⟨x6, _ | ⟨x7, tl⟩⟩⟩⟩⟩⟩⟩⟩
  all_goals intro d t h
  all_goals try exact Option.noConfusion h
  rw [takeRecord_cons8] at h
  cases h
  simp only [List.length_cons]
  omega

theorem decodeLoop_nil (f : Nat) (acc : DevMap) : decodeLoop f [] acc = .ok acc := by
  cases f <;> rfl

theorem decodeLoop_cons (f b : Nat) (rest : List Nat) (acc : DevMap) :
    decodeLoop (f + 1) (b :: rest) acc
      = (splitAtNull (b :: rest)).elim (Except.error DecodeError.unterminatedName) fun p =>
          if utf8Valid p.1 then
            (takeRecord p.2).elim (Except.error DecodeError.truncatedRecord) fun q =>
              decodeLoop f q.2 (insertDev acc p.1 q.1)
          else .error .invalidUtf8 := rfl

theorem decodeLoopSt_nil (f : Nat) (acc : DevMap) :
    decodeLoopSt f [] acc = (.ok acc, ⟨[]⟩) := by
  cases f <;> rfl

theorem decodeLoopSt_cons (f b : Nat) (rest : List Nat) (acc : DevMap) :
    decodeLoopSt (f + 1) (b :: rest) acc
      = (splitAtNull (b :: rest)).elim
          ((Except.error DecodeError.unterminatedName, ⟨b :: rest⟩)) fun p =>
          if utf8Valid p.1 then
            (takeRecord p.2).elim
              ((Except.error DecodeError.truncatedRecord, ⟨b :: rest⟩)) fun q =>
              decodeLoopSt f q.2 (insertDev acc p.1 q.1)
          else (Except.error DecodeError.invalidUtf8, ⟨b :: rest⟩) := rfl

theorem decodeLoop_fuel (f1 : Nat) :
    ∀ f2 buf acc, buf.length ≤ f1 → buf.length ≤ f2 →
      decodeLoop f1 buf acc = decodeLoop f2 buf acc := by
  induction f1 with
  | zero =>
    intro f2 buf acc h1 h2
    have hb : buf = [] := List.eq_nil_of_length_eq_zero (by omega)
    subst hb
    rw [decodeLoop_nil, decodeLoop_nil]
  | succ g ih =>
    intro f2 buf acc h1 h2
    rcases buf with _ | ⟨b, rest⟩
    · rw [decodeLoop_nil, decodeLoop_nil]
    · rcases f2 with _ | g2
      · exfalso; simp at h2
      · rw [decodeLoop_cons, decodeLoop_cons]
        cases hs : splitAtNull (b :: rest) with
        | none => rfl
        | some p =>
          simp only [Option.elim]
          by_cases hu : utf8Valid p.1 = true
          · rw [if_pos hu, if_pos hu]
            cases ht : takeRecord p.2 with
            | none => rfl
            | some q =>
              simp only [Option.elim]
              have hlen1 := splitAtNull_length _ _ _ hs
              have hlen2 := takeRecord_length _ _ _ ht
              refine ih g2 q.2 _ ?_ ?_ <;> simp at h1 h2 hlen1 <;> omega
          · rw [if_neg hu, if_neg hu]

theorem decodeLoopSt_fst (f : Nat) :
    ∀ buf acc, (decodeLoopSt f buf acc).1 = decodeLoop f buf acc := by
  induction f with
  | zero =>
    intro buf acc
    rcases buf with _ | ⟨b, rest⟩ <;> rfl
  | succ g ih =>
    intro buf acc
    rcases buf with _ | ⟨b, rest⟩
    · rfl
    · rw [decodeLoopSt_cons, decodeLoop_cons]
      cases hs : splitAtNull (b :: rest) with
      | none => rfl
      | some p =>
        simp only [Option.elim]
        by_cases hu : utf8Valid p.1 = true
        · rw [if_pos hu, if_pos hu]
          cases ht : takeRecord p.2 with
          | none => rfl
          | some q =>
            simp only [Option.elim]
            exact ih q.2 _
        · rw [if_neg hu, if_neg hu]

theorem decodeLoop_entry (f : Nat) (name rest : List Nat) (acc : DevMap) (h0 : 0 ∉ name) :
    decodeLoop (f + 1) (name ++ 0 :: rest) acc
      = if utf8Valid name then
          (takeRecord rest).elim (Except.error DecodeError.truncatedRecord) fun q =>
            decodeLoop f q.2 (insertDev acc name q.1)
        else .error .invalidUtf8 := by
  rcases hb : name ++ 0 :: rest with _ | ⟨b, bs⟩
  · simp at hb
  · rw [decodeLoop_cons, ← hb, splitAtNull_append _ _ h0]
    rfl

theorem decodeLoop_entry_any (f : Nat) (name rest : List Nat) (acc : DevMap)
    (h0 : 0 ∉ name) (hf : (name ++ 0 :: rest).length ≤ f) :
    decodeLoop f (name ++ 0 :: rest) acc
      = if utf8Valid name then
          (takeRecord rest).elim (Except.error DecodeError.truncatedRecord) fun q =>
            decodeLoop q.2.length q.2 (insertDev acc name q.1)
        else .error .invalidUtf8 := by
  rcases f with _ | g
  · exfalso; simp at hf
  · rw [decodeLoop_entry g _ _ _ h0]
    by_cases hu : utf8Valid name = true
    · rw [if_pos hu, if_pos hu]
      cases ht : takeRecord rest with
      | none => rfl
      | some q =>
        simp only [Option.elim]
        have hlen := takeRecord_length _ _ _ ht
        refine decodeLoop_fuel g q.2.length q.2 _ ?_ le_rfl
        simp at hf
        omega
    · rw [if_neg hu, if_neg hu]

theorem decodeDir_entry (name rest : List Nat) (h0 : 0 ∉ name) :
    decodeDir (name ++ 0 :: rest)
      = if utf8Valid name then
          (takeRecord rest).elim (Except.error DecodeError.truncatedRecord) fun q =>
            decodeLoop q.2.length q.2 (insertDev [] name q.1)
        else .error .invalidUtf8 :=
  decodeLoop_entry_any _ _ _ _ h0 le_rfl

theorem u32_from_be_lt (b0 b1 b2 b3 : Nat) : u32_from_be b0 b1 b2 b3 < 2 ^ 32 := by
  unfold u32_from_be
  norm_num
  omega

/-- C1: the directory decoding a `listdev` call performs depends only on the
input buffer, never on the process-wide CSL iterator state an earlier call
left behind: started from any two states, two calls on the same `/listdev`
reply bytes yield equal mappings, each equal to the pure decoder's output on
the buffer, and a repeated call sequenced after a first call (through the
state the first call retained) yields the same mapping again. -/
theorem listdev_stateless_decoding (bytes : List Nat) (g1 g2 : CslState) :
    (listdevRun bytes g1).1 = (listdevRun bytes g2).1
    ∧ (listdevRun bytes g1).1 = decodeDir (List.drop 2 bytes)
    ∧ (listdevRun bytes ((listdevRun bytes g1).2)).1 = (listdevRun bytes g1).1 := by
  have key : ∀ g : CslState, (listdevRun bytes g).1 = decodeDir (List.drop 2 bytes) := by
    intro g
    exact decodeLoopSt_fst (List.drop 2 bytes).length (List.drop 2 bytes) []
  exact ⟨(key g1).trans (key g2).symm, key g1, (key _).trans (key g1).symm⟩

/-- C2: directory decoding is total over the buffer and fails with a
`DecodeError` instead of reading out of bounds: a buffer that ends mid-name
with no null terminator, an entry whose name bytes are not valid UTF-8, and a
record truncated at the end of the buffer (fewer than 8 bytes after the name's
terminator) each decode to the corresponding error. -/
theorem decode_oob_errors (buf name rest : List Nat) :
    (buf ≠ [] → 0 ∉ buf → decodeDir buf = .error .unterminatedName)
    ∧ (0 ∉ name → utf8Valid name = false →
        decodeDir (name ++ 0 :: rest) = .error .invalidUtf8)
    ∧ (0 ∉ name → utf8Valid name = true → rest.length < 8 →
        decodeDir (name ++ 0 :: rest) = .error .truncatedRecord) := by
  refine ⟨?_, ?_, ?_⟩
  · intro hne h0
    rcases buf with _ | ⟨b, rest2⟩
    · exact absurd rfl hne
    · unfold decodeDir
      rw [List.length_cons, decodeLoop_cons, splitAtNull_none _ h0]
      rfl
  · intro h0 hu
    rw [decodeDir_entry _ _ h0, if_neg (by simp [hu])]
  · intro h0 hu hlen
    rw [decodeDir_entry _ _ h0, if_pos hu, takeRecord_short _ hlen]
    rfl

theorem decode_oob_errors_witness :
    decodeDir [65] = .error .unterminatedName
    ∧ decodeDir [255, 0] = .error .invalidUtf8
    ∧ decodeDir [65, 0, 1, 2, 3] = .error .truncatedRecord :=
  ⟨(decode_oob_errors [65] [] []).1 (by decide) (by decide),
   (decode_oob_errors [] [255] []).2.1 (by decide) (by decide),
   (decode_oob_errors [] [65] [1, 2, 3]).2.2 (by decide) (by decide) (by decide)⟩

/-- C8: each decoded entry interprets the 8 bytes following the name's null
terminator as two big-endian unsigned 32-bit values, offset (address) first
and length second, and binds exactly those two values (both below 2^32) to
the name in the mapping. -/
theorem decode_record_be (name : List Nat) (b0 b1 b2 b3 b4 b5 b6 b7 : Nat)
    (h0 : 0 ∉ name) (hu : utf8Valid name = true) :
    decodeDir (name ++ 0 :: [b0, b1, b2, b3, b4, b5, b6, b7]) =
      .ok [(name, { addr := u32_from_be b0 b1 b2 b3, length := u32_from_be b4 b5 b6 b7 })]
    ∧ u32_from_be b0 b1 b2 b3 < 2 ^ 32 ∧ u32_from_be b4 b5 b6 b7 < 2 ^ 32 := by
  refine ⟨?_, u32_from_be_lt b0 b1 b2 b3, u32_from_be_lt b4 b5 b6 b7⟩
  rw [decodeDir_entry _ _ h0, if_pos hu, takeRecord_cons8]
  rfl

theorem decode_record_be_witness :
    decodeDir [114, 101, 103, 0, 0, 0, 0, 16, 0, 0, 0, 4] =
      .ok [([114, 101, 103], { addr := 16, length := 4 })] :=
  (decode_record_be [114, 101, 103] 0 0 0 16 0 0 0 4 (by decide) (by decide)).1

/-- C9: a duplicate name keeps exactly one binding, the later entry's record
(last-write-wins), while distinctly named entries each keep their own record
under their own key. -/
theorem decode_last_write_wins (n1 n2 : List Nat)
    (a0 a1 a2 a3 a4 a5 a6 a7 c0 c1 c2 c3 c4 c5 c6 c7 : Nat)
    (h1 : 0 ∉ n1) (hu1 : utf8Valid n1 = true)
    (h2 : 0 ∉ n2) (hu2 : utf8Valid n2 = true) :
    (decodeDir (n1 ++ 0 :: a0 :: a1 :: a2 :: a3 :: a4 :: a5 :: a6 :: a7 ::
        (n1 ++ 0 :: [c0, c1, c2, c3, c4, c5, c6, c7])) =
      .ok [(n1, { addr := u32_from_be c0 c1 c2 c3, length := u32_from_be c4 c5 c6 c7 })])
    ∧ (n1 ≠ n2 →
      decodeDir (n1 ++ 0 :: a0 :: a1 :: a2 :: a3 :: a4 :: a5 :: a6 :: a7 ::
          (n2 ++ 0 :: [c0, c1, c2, c3, c4, c5, c6, c7])) =
        .ok [(n1, { addr := u32_from_be a0 a1 a2 a3, length := u32_from_be a4 a5 a6 a7 }),
          (n2, { addr := u32_from_be c0 c1 c2 c3, length := u32_from_be c4 c5 c6 c7 })]) := by
  constructor
  · rw [decodeDir_entry _ _ h1, if_pos hu1, takeRecord_cons8]
    simp only [Option.elim]
    rw [decodeLoop_entry_any _ _ _ _ h1 le_rfl, if_pos hu1, takeRecord_cons8]
    simp only [Option.elim]
    rw [decodeLoop_nil]
    simp [insertDev]
  · intro hne
    rw [decodeDir_entry _ _ h1, if_pos hu1, takeRecord_cons8]
    simp only [Option.elim]
    rw [decodeLoop_entry_any _ _ _ _ h2 le_rfl, if_pos hu2, takeRecord_cons8]
    simp only [Option.elim]
    rw [decodeLoop_nil]
    simp [insertDev, hne]

theorem decode_last_write_wins_witness :
    (decodeDir [97, 0, 0, 0, 0, 1, 0, 0, 0, 2, 97, 0, 0, 0, 0, 3, 0, 0, 0, 4] =
      .ok [([97], { addr := 3, length := 4 })])
    ∧ (decodeDir [97, 0, 0, 0, 0, 1, 0, 0, 0, 2, 98, 0, 0, 0, 0, 3, 0, 0, 0, 4] =
      .ok [([97], { addr := 1, length := 2 }), ([98], { addr := 3, length := 4 })]) :=
  ⟨(decode_last_write_wins [97] [98] 0 0 0 1 0 0 0 2 0 0 0 3 0 0 0 4
      (by decide) (by decide) (by decide) (by decide)).1,
   (decode_last_write_wins [97] [98] 0 0 0 1 0 0 0 2 0 0 0 3 0 0 0 4
      (by decide) (by decide) (by decide) (by decide)).2 (by decide)⟩

end Tapcp
